import Mathlib

/-!
Verification of the command batching and transaction coordination engine of
the spaces-adapter repository (src/ps/descriptor.js), via a shallow embedding.

JavaScript values handled by the engine (references, option bags, descriptor
payloads) are embedded as the inductive type JVal.  Objects are association
lists of string keys in insertion order, matching JS object key enumeration
order; JS objects never carry duplicate keys, so the embedding's functions
treat the first occurrence of a key as authoritative.

The native executor boundary is a function parameter producing either a
position-aligned pair of results and per-command errors, or a transport-level
failure; promise settlement is embedded as an Except value.
-/

/-- JavaScript values as consumed by the descriptor engine: strings, numbers,
booleans, arrays and plain objects (association lists in insertion order). -/
inductive JVal where
  | str : String → JVal
  | num : Int → JVal
  | bool : Bool → JVal
  | arr : List JVal → JVal
  | obj : List (String × JVal) → JVal

/-- An option bag or plain object body: keys with values in insertion order. -/
abbrev Options := List (String × JVal)

/-- Property lookup on an object body, first occurrence wins
(JS property read). -/
def lookupObj : Options → String → Option JVal
  | [], _ => none
  | (k', v) :: rest, k => if k' = k then some v else lookupObj rest k

/-- JS Object.prototype.hasOwnProperty on an object body. -/
def hasKey (o : Options) (k : String) : Bool :=
  (lookupObj o k).isSome

/-- JS property assignment: overwrite the value at an existing key in place,
otherwise append the new key in insertion order. -/
def setKey : Options → String → JVal → Options
  | [], k, v => [(k, v)]
  | (k', v') :: rest, k, v =>
      if k' = k then (k, v) :: rest else (k', v') :: setKey rest k v

/-- The keys of a JS object value, in insertion order (empty for
non-objects). -/
def objKeys : JVal → List String
  | .obj kvs => kvs.map Prod.fst
  | _ => []

/-- Whether a JS object value owns the given key (false for non-objects). -/
def objHasKey : JVal → String → Bool
  | .obj kvs, k => hasKey kvs k
  | _, _ => false

/-- JS truthiness of a value: empty string, zero and false are falsy; arrays
and objects are always truthy. -/
def truthyV : JVal → Bool
  | .str s => s ≠ ""
  | .num n => n ≠ 0
  | .bool b => b
  | .arr _ => true
  | .obj _ => true

/-- Truthiness of an option read: an absent key is falsy, a present key is as
truthy as its value (embeds a JS `if (options.k)` test). -/
def optTruthy (o : Options) (k : String) : Bool :=
  match lookupObj o k with
  | some v => truthyV v
  | none => false

mutual

/-- Lodash deep equality on values (the engine's option-conflict comparison):
structural on scalars and arrays, key-set based on objects so that key
insertion order is irrelevant. -/
def jeq : JVal → JVal → Bool
  | .str s, .str t => s = t
  | .num m, .num n => m = n
  | .bool a, .bool b => a = b
  | .arr xs, .arr ys => jeqList xs ys
  | .obj ka, .obj kb => ka.length = kb.length && jeqObj ka kb
  | _, _ => false
termination_by a b => sizeOf a

/-- Elementwise lodash equality of two arrays. -/
def jeqList : List JVal → List JVal → Bool
  | [], [] => true
  | x :: xs, y :: ys => jeq x y && jeqList xs ys
  | _, _ => false
termination_by xs ys => sizeOf xs

/-- Every entry of the first object body has a lodash-equal binding in the
second. -/
def jeqObj : List (String × JVal) → List (String × JVal) → Bool
  | [], _ => true
  | (k, v) :: rest, kb =>
      (match lookupObj kb k with
       | some w => jeq v w
       | none => false) && jeqObj rest kb
termination_by ka kb => sizeOf ka

end

mutual

/-- The reference normalizer: embeds the source function applied without the
multiGetProperties argument (as in every transaction and batch call site).
An array is elementwise normalized, reversed, and wrapped as an object with
the single key prefixed ref; a string becomes the targeted-instance triple; an
object owning the key named null has that nested reference normalized in
place; anything else passes through unchanged. -/
def wrap : JVal → JVal
  | .arr l => .obj [("_ref", .arr (wrapList l).reverse)]
  | .str s => .obj [("_ref", .str s), ("_enum", .str "ordinal"),
                    ("_value", .str "targetEnum")]
  | .obj kvs => if hasKey kvs "null" then .obj (wrapNull kvs) else .obj kvs
  | v => v
termination_by r => sizeOf r

/-- Elementwise normalization of a reference array (the map step of the array
branch of the normalizer). -/
def wrapList : List JVal → List JVal
  | [] => []
  | r :: rest => wrap r :: wrapList rest
termination_by l => sizeOf l

/-- In-place normalization of the value at the key named null of an object
body, leaving every other entry untouched. -/
def wrapNull : List (String × JVal) → List (String × JVal)
  | [] => []
  | (k, v) :: rest =>
      (if k = "null" then (k, wrap v) else (k, v)) :: wrapNull rest
termination_by kvs => sizeOf kvs

end

mutual

/-- Lodash deep merge of a source value into a destination value (the final
options computation of endTransaction): plain objects merge recursively
key-wise, arrays merge recursively index-wise, and in every other case the
source value replaces the destination value. -/
def lodashMergeVal : JVal → JVal → JVal
  | .obj da, .obj sb => .obj (lodashMergeObjDest da sb ++
      sb.filter (fun p => !hasKey da p.1))
  | .arr xs, .arr ys => .arr (lodashMergeArr xs ys)
  | _, s => s
termination_by a b => sizeOf a

/-- The destination-key pass of the lodash object merge: every destination
entry keeps its position, its value deep-merged with the source value at the
same key when one exists. -/
def lodashMergeObjDest : List (String × JVal) → List (String × JVal) →
    List (String × JVal)
  | [], _ => []
  | (k, av) :: rest, sb =>
      (match lookupObj sb k with
       | some bv => (k, lodashMergeVal av bv)
       | none => (k, av)) :: lodashMergeObjDest rest sb
termination_by da sb => sizeOf da

/-- Index-wise lodash merge of two arrays; the longer tail survives. -/
def lodashMergeArr : List JVal → List JVal → List JVal
  | xs, [] => xs
  | [], ys => ys
  | x :: xs, y :: ys => lodashMergeVal x y :: lodashMergeArr xs ys
termination_by xs ys => sizeOf xs

end

/-- Lodash deep merge of two object bodies: destination entries first with
source values merged in, then the source-only keys in source order. -/
def lodashMergeObj (da sb : List (String × JVal)) : List (String × JVal) :=
  lodashMergeObjDest da sb ++ sb.filter (fun p => !hasKey da p.1)

/-- The option merge of addToTransaction: lodash merge with the transaction
customizer, which acts key-wise on the top level only.  Iterates the keys of
the incoming options in order, mutating the accumulated options: an absent
key takes the incoming value; a present key keeps the accumulated value when
it is declared in the transaction options or deep-equal to the incoming one,
and otherwise the merge throws, leaving the accumulated options as mutated so
far.  Returns the (possibly partially) mutated accumulated options and
whether the incompatible-options error was thrown. -/
def mergeCustom (txOptions : Options) : Options → Options → Options × Bool
  | dest, [] => (dest, false)
  | dest, (k, b) :: rest =>
      match lookupObj dest k with
      | none => mergeCustom txOptions (setKey dest k b) rest
      | some a =>
          if hasKey txOptions k || jeq a b then
            mergeCustom txOptions (setKey dest k a) rest
          else
            (dest, true)

/-- A command record as produced by the descriptor builders: an opaque named
operation with a structured payload and optional per-command options.  The
engine never inspects these fields. -/
structure Cmd where
  name : String
  descriptor : JVal
  options : Option Options

/-- Outcome of a native batch dispatch: a position-aligned pair of results
and per-command errors (an entry is none where JS has null), or a
transport-level failure that rejects the whole call. -/
inductive ExecResult where
  | ok : List JVal → List (Option JVal) → ExecResult
  | fail : JVal → ExecResult

/-- The native executor boundary (the promisified batchPlay primitive),
embedded as a function from the command list and options to its response. -/
abbrev Exec := List Cmd → Options → ExecResult

/-- A settled value of one of the engine's promises.  The placeholders
constructor models the immediately-resolved array of unset slots of the given
length returned by an add to a transaction. -/
inductive Outcome where
  | results : List JVal → Outcome
  | pair : List JVal → List (Option JVal) → Outcome
  | placeholders : Nat → Outcome

/-- The errors the engine can surface: an unknown or closed transaction id,
an option conflict inside a transaction, the first per-command error of a
fail-fast batch, or a transport failure of the native call. -/
inductive BPError where
  | invalidTransaction : BPError
  | incompatibleOptions : BPError
  | commandError : JVal → BPError
  | transport : JVal → BPError

/-- An active transaction record: the options declared at begin, the options
accumulated across adds, and the accumulated command sequence. -/
structure TxRecord where
  txOptions : Options
  options : Options
  commands : List Cmd

/-- The mutable state of a Descriptor instance: the transaction id counter
and the map of active transactions in insertion order. -/
structure DescState where
  counter : Int
  transactions : List (Int × TxRecord)

/-- JS Map.prototype.get on the active transaction map. -/
def mapGet : List (Int × TxRecord) → Int → Option TxRecord
  | [], _ => none
  | (k', v) :: rest, k => if k' = k then some v else mapGet rest k

/-- JS Map.prototype.set: overwrite an existing key in place, otherwise
append in insertion order. -/
def mapSet : List (Int × TxRecord) → Int → TxRecord → List (Int × TxRecord)
  | [], k, v => [(k, v)]
  | (k', v') :: rest, k, v =>
      if k' = k then (k, v) :: rest else (k', v') :: mapSet rest k v

/-- JS Map.prototype.delete: remove the entry with the given key. -/
def mapDelete (m : List (Int × TxRecord)) (k : Int) : List (Int × TxRecord) :=
  m.filter (fun p => p.1 ≠ k)

/-- Models the opaque native interaction-mode constant SILENT of the host
descriptor interface. -/
def silentMode : JVal := .num 3

/-- The in-place option mutation at the top of the immediate batch dispatch:
default the interaction mode to SILENT when the caller did not set one. -/
def prepOptions (o : Options) : Options :=
  if hasKey o "interactionMode" then o else setKey o "interactionMode" silentMode

/-- The fail-fast error scan: the JS some-loop over the errors array, taking
the first truthy entry and stopping there. -/
def firstCmdError : List (Option JVal) → Option JVal
  | [] => none
  | some e :: rest => if truthyV e then some e else firstCmdError rest
  | none :: rest => firstCmdError rest

/-- The immediate batch dispatch: defaults the interaction mode in place,
invokes the native executor, and applies one of the two error-aggregation
policies.  Returns the caller-visible (mutated) options object together with
the settled outcome. -/
def batchPlayImmediate (exec : Exec) (cmds : List Cmd) (opts : Options) :
    Options × Except BPError Outcome :=
  let opts2 := prepOptions opts
  match exec cmds opts2 with
  | .fail e => (opts2, .error (.transport e))
  | .ok rs es =>
      if optTruthy opts2 "continueOnError" then
        (opts2, .ok (.pair rs es))
      else
        match firstCmdError es with
        | some e => (opts2, .error (.commandError e))
        | none => (opts2, .ok (.results rs))

/-- beginTransaction: allocate the next id, create a record with the declared
options and empty accumulated options and commands, and return the id. -/
def beginTransaction (st : DescState) (txOptions : Option Options) :
    Int × DescState :=
  (st.counter,
   ⟨st.counter + 1,
    mapSet st.transactions st.counter ⟨txOptions.getD [], [], []⟩⟩)

/-- addToTransaction: fail on an unknown id; merge the incoming options into
the accumulated options under the transaction customizer, rejecting the call
and appending nothing when an undeclared key conflicts; otherwise append the
commands and resolve with the placeholder array. -/
def addToTransaction (st : DescState) (tid : Int) (cmds : List Cmd)
    (opts : Options) : DescState × Except BPError Outcome :=
  match mapGet st.transactions tid with
  | none => (st, .error .invalidTransaction)
  | some r =>
      let m := mergeCustom r.txOptions r.options opts
      if m.2 then
        (⟨st.counter, mapSet st.transactions tid ⟨r.txOptions, m.1, r.commands⟩⟩,
         .error .incompatibleOptions)
      else
        (⟨st.counter,
          mapSet st.transactions tid ⟨r.txOptions, m.1, r.commands ++ cmds⟩⟩,
         .ok (.placeholders cmds.length))

/-- The final dispatch options of endTransaction: lodash deep merge of the
declared transaction options into the accumulated options. -/
def endFinalOptions (r : TxRecord) : Options :=
  lodashMergeObj r.options r.txOptions

/-- endTransaction: fail on an unknown id; dispatch the accumulated commands
once through the immediate batch dispatch under the merged final options; on
a fulfilled dispatch (and only then, the underlying tap combinator) delete
the record from the active map.  The record's accumulated options alias the
merged and interaction-mode-defaulted options object. -/
def endTransaction (exec : Exec) (st : DescState) (tid : Int) :
    DescState × Except BPError Outcome :=
  match mapGet st.transactions tid with
  | none => (st, .error .invalidTransaction)
  | some r =>
      let fo := endFinalOptions r
      let b := batchPlayImmediate exec r.commands fo
      let kept : DescState :=
        ⟨st.counter, mapSet st.transactions tid ⟨r.txOptions, b.1, r.commands⟩⟩
      match b.2 with
      | .ok out => (⟨kept.counter, mapDelete kept.transactions tid⟩, .ok out)
      | .error e => (kept, .error e)

/-- batchPlay: an empty command list short-circuits to the uniform empty
outcome of the current mode without touching the executor or the transaction
map; otherwise the call is routed to the transaction accumulator when a
transaction id is supplied, and to the immediate dispatch when not.  The
middle component is the caller-visible options object after the call. -/
def batchPlay (exec : Exec) (st : DescState) (cmds : List Cmd)
    (opts : Options) : DescState × Options × Except BPError Outcome :=
  if cmds.length = 0 then
    (st, opts,
     .ok (if optTruthy opts "continueOnError" then .pair [] [] else .results []))
  else if hasKey opts "transaction" then
    match lookupObj opts "transaction" with
    | some (.num t) =>
        let r := addToTransaction st t cmds opts
        (r.1, opts, r.2)
    | _ => (st, opts, .error .invalidTransaction)
  else
    let r := batchPlayImmediate exec cmds opts
    (st, r.1, r.2)

/-- A generic opaque command used by concrete scenarios. -/
def cmdA : Cmd := ⟨"cmdA", .obj [], none⟩

/-- A second opaque command used by concrete scenarios. -/
def cmdB : Cmd := ⟨"cmdB", .obj [], none⟩

/-- An executor that always succeeds with empty result arrays. -/
def constExec : Exec := fun _ _ => .ok [] []

/-- An executor whose second command errors, for the C4 witness. -/
def execW4a : Exec := fun _ _ => .ok [.num 10, .num 20] [none, some (.str "err")]

/-- An executor that succeeds on its single command, for the C4 witness. -/
def execW4b : Exec := fun _ _ => .ok [.num 10] [none]

/-- An executor whose only command errors, for the C5 witness. -/
def execW5 : Exec := fun _ _ => .ok [.num 1] [some (.str "boom")]

/-- The engine state of the C2 witness: one open transaction with id 0, no
declared options, an accumulated opt key bound to one, and one queued
command. -/
def stW2 : DescState := ⟨1, [(0, ⟨[], [("opt", .num 1)], [cmdA]⟩)]⟩

/-- An executor that always rejects at the transport level. -/
def failExec : Exec := fun _ _ => .fail (.str "boom")

/-- An executor that succeeds with a single result. -/
def okExec : Exec := fun _ _ => .ok [.num 1] [none]

/-- The engine state of the C1 scenarios: transaction 0 begun with no
declared options and one command added. -/
def stC1 : DescState :=
  (addToTransaction (beginTransaction ⟨0, []⟩ none).2 0 [cmdA] []).1

/-- A value that lodash treats as non-mergeable: neither a plain object nor
an array. -/
def isScalar : JVal → Bool
  | .obj _ => false
  | .arr _ => false
  | _ => true

/-- The engine state of the C8 witness: transaction 0 declared a scalar h
option at begin and accumulated an unrelated acc option. -/
def stW8 : DescState := ⟨1, [(0, ⟨[("h", .num 5)], [("acc", .num 7)], [cmdA]⟩)]⟩

/-- The begin-time history-state options of the C8 counterexample. -/
def txH : Options := [("historyStateInfo", .obj [("n", .num 1)])]

/-- The accumulated options of the C8 counterexample after its one add. -/
def accH : Options := [("historyStateInfo", .obj [("n", .num 2), ("x", .num 3)])]

/-- The engine state of the C8 counterexample: transaction 0 begun with the
history-state object declared, then one add supplying a different
history-state object. -/
def stC8 : DescState :=
  (addToTransaction (beginTransaction ⟨0, []⟩ (some txH)).2 0 [cmdA] accH).1

/-- The record of transaction 0 in the C8 counterexample state. -/
def rC8 : TxRecord := ⟨txH, accH, [cmdA]⟩

/-- Size bound for values found by object lookup, used for termination of the
deep merge. -/
theorem lookupObj_sizeOf {o : Options} {k : String} {v : JVal}
    (h : lookupObj o k = some v) : sizeOf v < sizeOf o := by
  induction o with
  | nil => simp [lookupObj] at h
  | cons hd tl ih =>
      obtain ⟨k', v'⟩ := hd
      by_cases hk : k' = k
      · simp [lookupObj, hk] at h
        subst h
        simp
        omega
      · simp [lookupObj, hk] at h
        have := ih h
        simp
        omega

theorem lookupObj_setKey_self (o : Options) (k : String) (v : JVal) :
    lookupObj (setKey o k v) k = some v := by
  induction o with
  | nil => simp [setKey, lookupObj]
  | cons hd tl ih =>
      obtain ⟨k', v'⟩ := hd
      by_cases hk : k' = k
      · simp [setKey, hk, lookupObj]
      · simp [setKey, hk, lookupObj, ih]

theorem lookupObj_setKey_ne (o : Options) (k : String) (v : JVal) {k' : String}
    (h : k' ≠ k) : lookupObj (setKey o k v) k' = lookupObj o k' := by
  induction o with
  | nil => simp [setKey, lookupObj, Ne.symm h]
  | cons hd tl ih =>
      obtain ⟨k0, v0⟩ := hd
      by_cases hk : k0 = k
      · subst hk
        simp [setKey, lookupObj, Ne.symm h]
      · simp [setKey, hk, lookupObj, ih]

theorem hasKey_false_lookup {o : Options} {k : String}
    (h : hasKey o k = false) : lookupObj o k = none := by
  unfold hasKey at h
  cases hl : lookupObj o k with
  | none => rfl
  | some v => rw [hl] at h; simp at h

theorem setKey_absent {o : Options} {k : String} (v : JVal)
    (h : hasKey o k = false) : setKey o k v = o ++ [(k, v)] := by
  induction o with
  | nil => simp [setKey]
  | cons hd tl ih =>
      obtain ⟨k0, v0⟩ := hd
      by_cases hk : k0 = k
      · subst hk
        simp [hasKey, lookupObj] at h
      · simp [hasKey, lookupObj, hk] at h
        simp [setKey, hk, ih (by simp [hasKey, h])]

theorem lookupObj_append (A B : Options) (k : String) :
    lookupObj (A ++ B) k = if hasKey A k then lookupObj A k else lookupObj B k := by
  induction A with
  | nil => simp [lookupObj, hasKey]
  | cons hd tl ih =>
      obtain ⟨k0, v0⟩ := hd
      by_cases hk : k0 = k
      · simp [lookupObj, hk, hasKey]
      · simp [lookupObj, hk, hasKey] at ih ⊢
        exact ih

theorem prepOptions_lookup_ne (o : Options) {k : String}
    (h : k ≠ "interactionMode") :
    lookupObj (prepOptions o) k = lookupObj o k := by
  unfold prepOptions
  split
  · rfl
  · exact lookupObj_setKey_ne o _ _ h

theorem optTruthy_prepOptions (o : Options) :
    optTruthy (prepOptions o) "continueOnError" = optTruthy o "continueOnError" := by
  unfold optTruthy
  rw [prepOptions_lookup_ne o (by decide)]

theorem firstCmdError_all_none {es : List (Option JVal)}
    (h : ∀ x ∈ es, x = none) : firstCmdError es = none := by
  induction es with
  | nil => rfl
  | cons hd tl ih =>
      have hhd := h hd (by simp)
      subst hhd
      simp [firstCmdError]
      exact ih (fun x hx => h x (by simp [hx]))

theorem firstCmdError_first {es : List (Option JVal)} {i : Nat} {e : JVal}
    (he : es.get? i = some (some e)) (ht : truthyV e = true)
    (hlt : ∀ j, j < i → es.get? j = some none) : firstCmdError es = some e := by
  induction es generalizing i with
  | nil => simp [List.get?] at he
  | cons hd tl ih =>
      cases i with
      | zero =>
          simp [List.get?] at he
          subst he
          simp [firstCmdError, ht]
      | succ n =>
          have h0 := hlt 0 (by omega)
          simp [List.get?] at h0
          subst h0
          simp [firstCmdError]
          exact ih (by simpa [List.get?] using he)
            (fun j hj => by
              have := hlt (j + 1) (by omega)
              simpa [List.get?] using this)

/-- Claim C4: for every non-empty command list dispatched in fail-fast mode,
if the executor's errors array has its first truthy entry at index i, the call
rejects with exactly that error; entries past i are universally quantified, so
the result never depends on them.  If every entry is null the call resolves
with the results array alone, never exposing the errors array. -/
theorem C4_fail_fast_first_error (exec : Exec) (cmds : List Cmd)
    (opts : Options) (rs : List JVal) (es : List (Option JVal))
    (hne : cmds ≠ [])
    (hff : optTruthy opts "continueOnError" = false)
    (hexec : exec cmds (prepOptions opts) = .ok rs es) :
    (∀ i e, es.get? i = some (some e) → truthyV e = true →
        (∀ j, j < i → es.get? j = some none) →
        (batchPlayImmediate exec cmds opts).2 = .error (.commandError e))
    ∧ ((∀ x ∈ es, x = none) →
        (batchPlayImmediate exec cmds opts).2 = .ok (.results rs)) := by
  have hff2 : optTruthy (prepOptions opts) "continueOnError" = false := by
    rw [optTruthy_prepOptions]
    exact hff
  constructor
  · intro i e he ht hlt
    simp [batchPlayImmediate, hexec, hff2, firstCmdError_first he ht hlt]
  · intro hall
    simp [batchPlayImmediate, hexec, hff2, firstCmdError_all_none hall]

/-- Witness for C4 at concrete inputs: a two-command fail-fast batch whose
second command errors rejects with that error, and an error-free batch
resolves with the results alone. -/
theorem C4_witness :
    (batchPlayImmediate execW4a [cmdA, cmdB] []).2
        = .error (.commandError (.str "err"))
    ∧ (batchPlayImmediate execW4b [cmdA] []).2 = .ok (.results [.num 10]) := by
  constructor
  · exact (C4_fail_fast_first_error execW4a [cmdA, cmdB] [] [.num 10, .num 20]
      [none, some (.str "err")] (by simp) rfl rfl).1 1 (.str "err") rfl
      (by decide)
      (fun j hj => by
        have hj0 : j = 0 := by omega
        subst hj0
        rfl)
  · exact (C4_fail_fast_first_error execW4b [cmdA] [] [.num 10] [none]
      (by simp) rfl rfl).2 (by simp)

/-- Claim C5: for every non-empty command list dispatched with
continueOnError truthy, the call resolves with the raw results-and-errors
pair exactly as the executor returned it (hence position-aligned arrays of
the commands' length under the executor contract), and never rejects because
of per-command errors (the errors array is universally quantified). -/
theorem C5_continue_on_error_raw_pair (exec : Exec) (cmds : List Cmd)
    (opts : Options) (rs : List JVal) (es : List (Option JVal))
    (hne : cmds ≠ [])
    (hcoe : optTruthy opts "continueOnError" = true)
    (hexec : exec cmds (prepOptions opts) = .ok rs es) :
    (batchPlayImmediate exec cmds opts).2 = .ok (.pair rs es)
    ∧ (rs.length = cmds.length → es.length = cmds.length →
        ∃ rs2 es2, (batchPlayImmediate exec cmds opts).2 = .ok (.pair rs2 es2)
          ∧ rs2.length = cmds.length ∧ es2.length = cmds.length) := by
  have hcoe2 : optTruthy (prepOptions opts) "continueOnError" = true := by
    rw [optTruthy_prepOptions]
    exact hcoe
  have h1 : (batchPlayImmediate exec cmds opts).2 = .ok (.pair rs es) := by
    simp [batchPlayImmediate, hexec, hcoe2]
  exact ⟨h1, fun hr he => ⟨rs, es, h1, hr, he⟩⟩

/-- Witness for C5 at concrete inputs: a continue-on-error batch with an
erroring command still resolves, with the raw aligned pair. -/
theorem C5_witness :
    (batchPlayImmediate execW5 [cmdA] [("continueOnError", .bool true)]).2
        = .ok (.pair [.num 1] [some (.str "boom")])
    ∧ ∃ rs2 es2,
        (batchPlayImmediate execW5 [cmdA] [("continueOnError", .bool true)]).2
          = .ok (.pair rs2 es2) ∧ rs2.length = 1 ∧ es2.length = 1 := by
  have h := C5_continue_on_error_raw_pair execW5 [cmdA]
    [("continueOnError", .bool true)] [.num 1] [some (.str "boom")]
    (by simp) rfl rfl
  exact ⟨h.1, h.2 rfl rfl⟩

/-- Claim C6: for every options value and every executor, batchPlay on an
empty command list resolves without consulting the executor (the executor is
universally quantified and absent from the result): to the pair of two empty
arrays when continueOnError is truthy, and to a single empty array
otherwise. -/
theorem C6_empty_batch_short_circuit (exec : Exec) (st : DescState)
    (opts : Options) :
    (optTruthy opts "continueOnError" = true →
      batchPlay exec st [] opts = (st, opts, .ok (.pair [] [])))
    ∧ (optTruthy opts "continueOnError" = false →
      batchPlay exec st [] opts = (st, opts, .ok (.results []))) := by
  constructor <;> intro h <;> simp [batchPlay, h]

/-- Witness for C6 at concrete inputs: both continue-on-error and fail-fast
empty batches, against an arbitrary concrete executor. -/
theorem C6_witness :
    batchPlay constExec ⟨0, []⟩ [] [("continueOnError", .bool true)]
      = (⟨0, []⟩, [("continueOnError", .bool true)], .ok (.pair [] []))
    ∧ batchPlay constExec ⟨0, []⟩ [] [] = (⟨0, []⟩, [], .ok (.results [])) := by
  exact ⟨(C6_empty_batch_short_circuit constExec ⟨0, []⟩
            [("continueOnError", .bool true)]).1 rfl,
         (C6_empty_batch_short_circuit constExec ⟨0, []⟩ []).2 rfl⟩

/-- Claim C9: for every transaction id value, including ids never begun or
already ended, batchPlay with an empty command list and options carrying that
transaction key resolves to the empty outcome with the state untouched: the
empty-batch short-circuit runs before the transaction lookup, so no
invalid-transaction error can arise. -/
theorem C9_empty_batch_skips_transaction_validation (exec : Exec)
    (st : DescState) (opts : Options) (t : JVal)
    (ht : lookupObj opts "transaction" = some t) :
    batchPlay exec st [] opts =
      (st, opts, .ok (if optTruthy opts "continueOnError" then .pair [] []
                      else .results [])) := by
  simp [batchPlay]

/-- Witness for C9 at concrete inputs: an empty batch naming the never-begun
transaction id 99 against the empty engine state resolves successfully. -/
theorem C9_witness :
    batchPlay constExec ⟨0, []⟩ [] [("transaction", .num 99)]
      = (⟨0, []⟩, [("transaction", .num 99)], .ok (.results [])) := by
  have h := C9_empty_batch_skips_transaction_validation constExec ⟨0, []⟩
    [("transaction", .num 99)] (.num 99) rfl
  simpa [optTruthy, lookupObj, truthyV] using h

/-- Claim C10: for every non-empty immediate batch dispatch whose options
lack the interactionMode key, the caller's options object itself is mutated:
after the call it is the original object with interactionMode appended as
SILENT, that key reads back as SILENT, and every other key reads back
unchanged. -/
theorem C10_interaction_mode_defaulted_in_place (exec : Exec)
    (cmds : List Cmd) (opts : Options)
    (hne : cmds ≠ [])
    (hno : hasKey opts "interactionMode" = false) :
    (batchPlayImmediate exec cmds opts).1
        = opts ++ [("interactionMode", silentMode)]
    ∧ lookupObj (batchPlayImmediate exec cmds opts).1 "interactionMode"
        = some silentMode
    ∧ ∀ k, k ≠ "interactionMode" →
        lookupObj (batchPlayImmediate exec cmds opts).1 k = lookupObj opts k := by
  have h1 : (batchPlayImmediate exec cmds opts).1 = prepOptions opts := by
    unfold batchPlayImmediate
    cases hexec : exec cmds (prepOptions opts) with
    | fail e => simp [hexec]
    | ok rs es =>
        simp only [hexec]
        by_cases hc : optTruthy (prepOptions opts) "continueOnError" = true
        · simp [hc]
        · simp only [hc, if_false]
          cases firstCmdError es <;> simp
  have hp : prepOptions opts = setKey opts "interactionMode" silentMode := by
    unfold prepOptions
    simp [hno]
  refine ⟨?_, ?_, ?_⟩
  · rw [h1, hp, setKey_absent _ hno]
  · rw [h1, hp, lookupObj_setKey_self]
  · intro k hk
    rw [h1, prepOptions_lookup_ne opts hk]

/-- Witness for C10 at concrete inputs: a one-command dispatch with only a
continueOnError option gains interactionMode SILENT in place and keeps the
continueOnError entry readable and unchanged. -/
theorem C10_witness :
    (batchPlayImmediate constExec [cmdA] [("continueOnError", .bool true)]).1
        = [("continueOnError", .bool true), ("interactionMode", silentMode)]
    ∧ lookupObj (batchPlayImmediate constExec [cmdA]
        [("continueOnError", .bool true)]).1 "interactionMode" = some silentMode
    ∧ lookupObj (batchPlayImmediate constExec [cmdA]
        [("continueOnError", .bool true)]).1 "continueOnError"
        = some (.bool true) := by
  have h := C10_interaction_mode_defaulted_in_place constExec [cmdA]
    [("continueOnError", .bool true)] (by simp) rfl
  exact ⟨h.1, h.2.1, (h.2.2 "continueOnError" (by decide)).trans rfl⟩

/-- The elementwise pass of the array branch is exactly a map of the
normalizer over the elements. -/
theorem wrapList_eq_map (l : List JVal) : wrapList l = l.map wrap := by
  induction l with
  | nil => simp [wrapList]
  | cons hd tl ih => simp [wrapList, ih]

/-- Claim C3 (amended): for every input reference that is a sequence, the
normalizer normalizes every element, reverses the order, and wraps the result
as an object whose single key is the underscore-ref key (not an
underscore-ref-list key as the specification states). -/
theorem C3_array_normalize_reverse_wrap (l : List JVal) :
    wrap (.arr l) = .obj [("_ref", .arr ((l.map wrap).reverse))] := by
  simp [wrap, wrapList_eq_map]

/-- Counterexample for C3 as stated: normalizing the one-element sequence of
the class string layer yields an object whose single key is the
underscore-ref key; it owns no underscore-ref-list key. -/
theorem C3_counterexample :
    wrap (.arr [.str "layer"])
      = .obj [("_ref", .arr [.obj [("_ref", .str "layer"),
          ("_enum", .str "ordinal"), ("_value", .str "targetEnum")]])]
    ∧ objKeys (wrap (.arr [.str "layer"])) = ["_ref"]
    ∧ objHasKey (wrap (.arr [.str "layer"])) "_ref_list" = false := by
  refine ⟨?_, ?_, ?_⟩ <;>
    simp [wrap, wrapList, hasKey, lookupObj, objKeys, objHasKey]

/-- Normalizing the value at the null key leaves the key set of an object
body unchanged. -/
theorem hasKey_wrapNull (kvs : List (String × JVal)) (k : String) :
    hasKey (wrapNull kvs) k = hasKey kvs k := by
  induction kvs with
  | nil => simp [wrapNull]
  | cons hd tl ih =>
      obtain ⟨k0, v⟩ := hd
      by_cases h0 : k0 = "null"
      · subst h0
        by_cases hk : "null" = k
        · simp [wrapNull, hasKey, lookupObj, hk]
        · simp [wrapNull, hasKey, lookupObj, hk] at ih ⊢
          exact ih
      · by_cases hk : k0 = k
        · subst hk
          simp [wrapNull, h0, hasKey, lookupObj]
        · simp [wrapNull, h0, hasKey, lookupObj, hk] at ih ⊢
          exact ih

mutual

/-- Claim C7: the reference normalizer, applied without multiGetProperties,
is idempotent: normalizing a normalized reference is a no-op, for every
reference value. -/
theorem C7_wrap_idempotent (r : JVal) : wrap (wrap r) = wrap r := by
  cases r with
  | str s => simp [wrap, hasKey, lookupObj]
  | num n => simp [wrap]
  | bool b => simp [wrap]
  | arr l => simp [wrap, hasKey, lookupObj]
  | obj kvs =>
      by_cases h : hasKey kvs "null" = true
      · rw [show wrap (.obj kvs) = .obj (wrapNull kvs) by simp [wrap, h]]
        rw [show wrap (JVal.obj (wrapNull kvs)) = .obj (wrapNull (wrapNull kvs))
              by simp [wrap, hasKey_wrapNull, h]]
        rw [wrapNull_idem kvs]
      · rw [show wrap (.obj kvs) = .obj kvs by simp [wrap, h]]
        simp [wrap, h]
termination_by sizeOf r

/-- Idempotence of the in-place normalization at the null key. -/
theorem wrapNull_idem (kvs : List (String × JVal)) :
    wrapNull (wrapNull kvs) = wrapNull kvs := by
  match kvs with
  | [] => simp [wrapNull]
  | (k, v) :: rest =>
      by_cases h0 : k = "null"
      · subst h0
        simp [wrapNull, C7_wrap_idempotent v, wrapNull_idem rest]
      · simp [wrapNull, h0, wrapNull_idem rest]
termination_by sizeOf kvs

end

theorem mapGet_mapSet_self (m : List (Int × TxRecord)) (k : Int)
    (v : TxRecord) : mapGet (mapSet m k v) k = some v := by
  induction m with
  | nil => simp [mapSet, mapGet]
  | cons hd tl ih =>
      obtain ⟨k1, v1⟩ := hd
      by_cases hk : k1 = k
      · simp [mapSet, hk, mapGet]
      · simp [mapSet, hk, mapGet, ih]

theorem mapGet_mapDelete_self (m : List (Int × TxRecord)) (k : Int) :
    mapGet (mapDelete m k) k = none := by
  induction m with
  | nil => simp [mapDelete, mapGet]
  | cons hd tl ih =>
      obtain ⟨k1, v1⟩ := hd
      by_cases hk : k1 = k
      · simpa [mapDelete, hk] using ih
      · simpa [mapDelete, mapGet, hk] using ih

/-- If the accumulated and the incoming options both bind a key that is not
declared in the transaction options, to values that are not deep-equal, the
customizer merge throws. -/
theorem mergeCustom_conflict (tx : Options) (src : Options) :
    ∀ (dest : Options) (k : String) (a b : JVal),
    lookupObj dest k = some a → lookupObj src k = some b →
    hasKey tx k = false → jeq a b = false →
    (mergeCustom tx dest src).2 = true := by
  induction src with
  | nil =>
      intro dest k a b _ hb _ _
      simp [lookupObj] at hb
  | cons hd tl ih =>
      intro dest k a b ha hb htx hne
      obtain ⟨k1, b1⟩ := hd
      by_cases hk : k1 = k
      · subst hk
        simp [lookupObj] at hb
        subst hb
        simp [mergeCustom, ha, htx, hne]
      · simp [lookupObj, hk] at hb
        simp only [mergeCustom]
        cases hd2 : lookupObj dest k1 with
        | none =>
            exact ih (setKey dest k1 b1) k a b
              (by rw [lookupObj_setKey_ne _ _ _ (Ne.symm hk)]; exact ha)
              hb htx hne
        | some a1 =>
            by_cases hcond : (hasKey tx k1 || jeq a1 b1) = true
            · simp only [hcond, if_true]
              exact ih (setKey dest k1 a1) k a b
                (by rw [lookupObj_setKey_ne _ _ _ (Ne.symm hk)]; exact ha)
                hb htx hne
            · simp [hcond]

/-- Claim C2: an add that supplies an option key whose value deep-differs
from the already-accumulated value, the key not being declared at begin,
fails with the incompatible-options error; its commands are not appended and
the transaction remains open with its declared options intact, so a
subsequent end dispatches exactly the commands of the adds that succeeded. -/
theorem C2_incompatible_options_atomic_reject (st : DescState) (tid : Int)
    (r : TxRecord) (cmds : List Cmd) (opts : Options) (k : String) (a b : JVal)
    (hr : mapGet st.transactions tid = some r)
    (ha : lookupObj r.options k = some a)
    (hb : lookupObj opts k = some b)
    (hundecl : hasKey r.txOptions k = false)
    (hne : jeq a b = false) :
    (addToTransaction st tid cmds opts).2 = .error .incompatibleOptions
    ∧ ∃ r2, mapGet (addToTransaction st tid cmds opts).1.transactions tid = some r2
        ∧ r2.commands = r.commands
        ∧ r2.txOptions = r.txOptions
        ∧ (∀ exec, (endTransaction exec (addToTransaction st tid cmds opts).1 tid).2
            = (batchPlayImmediate exec r.commands (endFinalOptions r2)).2) := by
  have hmerge := mergeCustom_conflict r.txOptions opts r.options k a b ha hb hundecl hne
  have hstep : addToTransaction st tid cmds opts =
      (⟨st.counter, mapSet st.transactions tid
          ⟨r.txOptions, (mergeCustom r.txOptions r.options opts).1, r.commands⟩⟩,
       .error .incompatibleOptions) := by
    unfold addToTransaction
    rw [hr]
    simp [hmerge]
  refine ⟨by rw [hstep], ⟨r.txOptions, (mergeCustom r.txOptions r.options opts).1,
    r.commands⟩, ?_, rfl, rfl, ?_⟩
  · rw [hstep]
    exact mapGet_mapSet_self _ _ _
  · intro exec
    have hm2 : mapGet (addToTransaction st tid cmds opts).1.transactions tid
        = some ⟨r.txOptions, (mergeCustom r.txOptions r.options opts).1, r.commands⟩ := by
      rw [hstep]
      exact mapGet_mapSet_self _ _ _
    unfold endTransaction
    rw [hm2]
    cases hb2 : (batchPlayImmediate exec r.commands
        (endFinalOptions ⟨r.txOptions,
          (mergeCustom r.txOptions r.options opts).1, r.commands⟩)).2 <;>
      simp [hb2]

/-- Witness for C2 at concrete inputs: an add disagreeing on the undeclared
opt key fails with the incompatible-options error, appends nothing, and
leaves the transaction dispatchable with its original command. -/
theorem C2_witness :
    (addToTransaction stW2 0 [cmdB] [("opt", .num 2)]).2
        = .error .incompatibleOptions
    ∧ ∃ r2, mapGet (addToTransaction stW2 0 [cmdB]
          [("opt", .num 2)]).1.transactions 0 = some r2
        ∧ r2.commands = [cmdA]
        ∧ r2.txOptions = []
        ∧ (∀ exec, (endTransaction exec (addToTransaction stW2 0 [cmdB]
              [("opt", .num 2)]).1 0).2
            = (batchPlayImmediate exec [cmdA] (endFinalOptions r2)).2) := by
  exact C2_incompatible_options_atomic_reject stW2 0 ⟨[], [("opt", .num 1)], [cmdA]⟩
    [cmdB] [("opt", .num 2)] "opt" (.num 1) (.num 2)
    (by simp [stW2, mapGet]) (by simp [lookupObj]) (by simp [lookupObj])
    (by simp [hasKey, lookupObj]) (by simp [jeq])

/-- Claim C1 (amended): when endTransaction settles successfully the record
is removed from the active map, so any subsequent endTransaction or add on
that id fails with the invalid-transaction error; when the underlying batch
dispatch fails, however, the record is not removed (the removal runs in a
fulfillment-only tap handler) and the id remains active. -/
theorem C1_removal_only_on_success (exec : Exec) (st : DescState) (tid : Int) :
    (∀ st2 out, endTransaction exec st tid = (st2, .ok out) →
        mapGet st2.transactions tid = none
        ∧ (∀ exec2, (endTransaction exec2 st2 tid).2 = .error .invalidTransaction)
        ∧ (∀ cmds opts, (addToTransaction st2 tid cmds opts).2
            = .error .invalidTransaction))
    ∧ (∀ st2 e, endTransaction exec st tid = (st2, .error e) →
        e ≠ .invalidTransaction → (mapGet st2.transactions tid).isSome = true) := by
  cases hm : mapGet st.transactions tid with
  | none =>
      constructor
      · intro st2 out heq
        simp [endTransaction, hm] at heq
      · intro st2 e heq hne
        simp [endTransaction, hm] at heq
        exact absurd heq.2.symm hne
  | some r =>
      cases hb2 : (batchPlayImmediate exec r.commands (endFinalOptions r)).2 with
      | ok out0 =>
          have heval : endTransaction exec st tid =
              (⟨st.counter, mapDelete (mapSet st.transactions tid
                  ⟨r.txOptions, (batchPlayImmediate exec r.commands
                    (endFinalOptions r)).1, r.commands⟩) tid⟩, .ok out0) := by
            unfold endTransaction
            rw [hm]
            simp [hb2]
          constructor
          · intro st2 out heq
            rw [heval] at heq
            injection heq with hst hout
            have hnone : mapGet st2.transactions tid = none := by
              rw [← hst]
              exact mapGet_mapDelete_self _ _
            refine ⟨hnone, ?_, ?_⟩
            · intro exec2
              simp [endTransaction, hnone]
            · intro cmds opts
              simp [addToTransaction, hnone]
          · intro st2 e heq hne
            rw [heval] at heq
            injection heq with hst hout
            simp at hout
      | error e0 =>
          have heval : endTransaction exec st tid =
              (⟨st.counter, mapSet st.transactions tid
                  ⟨r.txOptions, (batchPlayImmediate exec r.commands
                    (endFinalOptions r)).1, r.commands⟩⟩, .error e0) := by
            unfold endTransaction
            rw [hm]
            simp [hb2]
          constructor
          · intro st2 out heq
            rw [heval] at heq
            injection heq with hst hout
            simp at hout
          · intro st2 e heq hne
            rw [heval] at heq
            injection heq with hst hout
            rw [← hst]
            simp [mapGet_mapSet_self]

/-- Counterexample for C1 as stated: when the batch dispatch of
endTransaction fails, the record is not removed from the active map, and a
subsequent endTransaction on the same id does not fail with the
invalid-transaction error; it dispatches the batch again. -/
theorem C1_counterexample :
    (endTransaction failExec stC1 0).2 = .error (.transport (.str "boom"))
    ∧ (mapGet (endTransaction failExec stC1 0).1.transactions 0).isSome = true
    ∧ (endTransaction failExec (endTransaction failExec stC1 0).1 0).2
        = .error (.transport (.str "boom")) := by
  refine ⟨?_, ?_, ?_⟩ <;>
    simp [stC1, beginTransaction, addToTransaction, endTransaction, mergeCustom,
      mapGet, mapSet, mapDelete, endFinalOptions, lodashMergeObj,
      lodashMergeObjDest, batchPlayImmediate, prepOptions, hasKey, lookupObj,
      setKey, failExec, optTruthy, firstCmdError]

/-- Witness for the amended C1 at concrete inputs: after a successful
endTransaction of the one-command transaction 0, its record is gone and both
a repeated end and a further add fail with the invalid-transaction error. -/
theorem C1_witness :
    mapGet (⟨1, []⟩ : DescState).transactions 0 = none
    ∧ (endTransaction constExec (⟨1, []⟩ : DescState) 0).2
        = .error .invalidTransaction
    ∧ (addToTransaction (⟨1, []⟩ : DescState) 0 [cmdB] []).2
        = .error .invalidTransaction := by
  have h := (C1_removal_only_on_success okExec stC1 0).1 ⟨1, []⟩
    (.results [.num 1])
    (by simp [stC1, beginTransaction, addToTransaction, endTransaction,
      mergeCustom, mapGet, mapSet, mapDelete, endFinalOptions, lodashMergeObj,
      lodashMergeObjDest, batchPlayImmediate, prepOptions, hasKey, lookupObj,
      setKey, okExec, optTruthy, firstCmdError])
  exact ⟨h.1, h.2.1 constExec, h.2.2 [cmdB] []⟩

/-- Lookup in the destination pass of the lodash object merge: every
destination key survives in place, with its value merged against the source
value at the same key when one exists. -/
theorem lookupObj_lodashMergeObjDest (da sb : Options) (k : String) :
    lookupObj (lodashMergeObjDest da sb) k =
      (lookupObj da k).map (fun a =>
        match lookupObj sb k with
        | some b => lodashMergeVal a b
        | none => a) := by
  induction da with
  | nil => simp [lodashMergeObjDest, lookupObj]
  | cons hd tl ih =>
      obtain ⟨k1, a1⟩ := hd
      by_cases hk : k1 = k
      · subst hk
        cases hsb : lookupObj sb k1 <;>
          simp [lodashMergeObjDest, lookupObj, hsb]
      · cases hsb : lookupObj sb k1 <;>
          simp [lodashMergeObjDest, lookupObj, hk, hsb, ih]

/-- Lookup in the source-only pass of the lodash object merge: a key kept by
the filter reads from the source, a key owned by the destination is absent
from the filtered list. -/
theorem lookupObj_mergeFilter (da sb : Options) (k : String) :
    lookupObj (sb.filter (fun p => !hasKey da p.1)) k =
      if hasKey da k then none else lookupObj sb k := by
  induction sb with
  | nil => simp [lookupObj]
  | cons hd tl ih =>
      obtain ⟨k2, b2⟩ := hd
      by_cases hk : k2 = k
      · subst hk
        by_cases hda : hasKey da k2 = true
        · simpa [List.filter_cons, hda, lookupObj] using ih
        · simp at hda
          simp [List.filter_cons, hda, lookupObj]
      · by_cases hda : hasKey da k2 = true
        · simpa [List.filter_cons, hda, lookupObj, hk] using ih
        · simp at hda
          simpa [List.filter_cons, hda, lookupObj, hk] using ih

/-- Key-wise description of the lodash deep merge of two object bodies. -/
theorem lookupObj_lodashMergeObj (da sb : Options) (k : String) :
    lookupObj (lodashMergeObj da sb) k =
      match lookupObj da k, lookupObj sb k with
      | some a, some b => some (lodashMergeVal a b)
      | some a, none => some a
      | none, some b => some b
      | none, none => none := by
  have hkeys : hasKey (lodashMergeObjDest da sb) k = hasKey da k := by
    simp [hasKey, lookupObj_lodashMergeObjDest]
  unfold lodashMergeObj
  rw [lookupObj_append, hkeys, lookupObj_lodashMergeObjDest,
    lookupObj_mergeFilter]
  cases hda : lookupObj da k <;> cases hsb : lookupObj sb k <;>
    simp [hasKey, hda, hsb]

/-- Merging a non-mergeable source value replaces the destination value. -/
theorem lodashMergeVal_scalar (a b : JVal) (h : isScalar b = true) :
    lodashMergeVal a b = b := by
  cases a <;> cases b <;> simp [isScalar] at h ⊢ <;> simp [lodashMergeVal]

/-- Claim C8 (amended): an add supplying any value for a key pre-declared in
the begin-time options succeeds with no conflict check; endTransaction
dispatches under the lodash deep merge of the accumulated options with the
begin-time options, in which a begin-time value overrides key-wise whenever
it is not itself an object or array being deep-merged, and keys not declared
at begin come from the accumulated options. -/
theorem C8_final_options_merge (st : DescState) (tid : Int) (r : TxRecord)
    (hr : mapGet st.transactions tid = some r) :
    (∀ k b cmds, hasKey r.txOptions k = true →
        (addToTransaction st tid cmds [(k, b)]).2 = .ok (.placeholders cmds.length))
    ∧ (∀ k v, lookupObj r.txOptions k = some v → isScalar v = true →
        lookupObj (endFinalOptions r) k = some v)
    ∧ (∀ k, hasKey r.txOptions k = false →
        lookupObj (endFinalOptions r) k = lookupObj r.options k)
    ∧ (∀ exec, (endTransaction exec st tid).2
        = (batchPlayImmediate exec r.commands (endFinalOptions r)).2) := by
  refine ⟨?_, ?_, ?_, ?_⟩
  · intro k b cmds htx
    unfold addToTransaction
    rw [hr]
    cases hda : lookupObj r.options k with
    | none => simp [mergeCustom, hda]
    | some a => simp [mergeCustom, hda, htx]
  · intro k v htx hscal
    unfold endFinalOptions
    rw [lookupObj_lodashMergeObj, htx]
    cases hda : lookupObj r.options k <;>
      simp [lodashMergeVal_scalar _ _ hscal]
  · intro k htx
    unfold endFinalOptions
    rw [lookupObj_lodashMergeObj, hasKey_false_lookup htx]
    cases hda : lookupObj r.options k <;> simp
  · intro exec
    unfold endTransaction
    rw [hr]
    cases hb2 : (batchPlayImmediate exec r.commands (endFinalOptions r)).2 <;>
      simp [hb2]

/-- Witness for the amended C8 at concrete inputs: an add on the declared h
key with a different value succeeds, the dispatched h value is the begin-time
scalar, the undeclared acc key keeps its accumulated value, and the end call
dispatches the record's command under the merged options. -/
theorem C8_witness :
    (addToTransaction stW8 0 [cmdB] [("h", .num 99)]).2 = .ok (.placeholders 1)
    ∧ lookupObj (endFinalOptions ⟨[("h", .num 5)], [("acc", .num 7)], [cmdA]⟩) "h"
        = some (.num 5)
    ∧ lookupObj (endFinalOptions ⟨[("h", .num 5)], [("acc", .num 7)], [cmdA]⟩) "acc"
        = some (.num 7)
    ∧ (endTransaction constExec stW8 0).2
        = (batchPlayImmediate constExec [cmdA]
            (endFinalOptions ⟨[("h", .num 5)], [("acc", .num 7)], [cmdA]⟩)).2 := by
  have h := C8_final_options_merge stW8 0 ⟨[("h", .num 5)], [("acc", .num 7)], [cmdA]⟩
    (by simp [stW8, mapGet])
  refine ⟨h.1 "h" (.num 99) [cmdB] (by simp [hasKey, lookupObj]), ?_, ?_, h.2.2.2 constExec⟩
  · exact h.2.1 "h" (.num 5) (by simp [lookupObj]) (by simp [isScalar])
  · exact (h.2.2.1 "acc" (by simp [hasKey, lookupObj])).trans (by simp [lookupObj])

/-- Counterexample for C8 as stated: the add on the pre-declared
history-state key succeeds, but the final dispatch options do not carry the
begin-time value for that key; they carry the lodash deep merge of the two
objects, which is not deep-equal to the begin-time value, so begin-time
values do not always override. -/
theorem C8_counterexample :
    (addToTransaction (beginTransaction ⟨0, []⟩ (some txH)).2 0 [cmdA] accH).2
        = .ok (.placeholders 1)
    ∧ mapGet stC8.transactions 0 = some rC8
    ∧ lookupObj (endFinalOptions rC8) "historyStateInfo"
        = some (.obj [("n", .num 1), ("x", .num 3)])
    ∧ jeq (.obj [("n", .num 1), ("x", .num 3)]) (.obj [("n", .num 1)]) = false := by
  refine ⟨?_, ?_, ?_, ?_⟩ <;>
    simp [stC8, rC8, txH, accH, beginTransaction, addToTransaction, mergeCustom,
      mapGet, mapSet, endFinalOptions, lodashMergeObj, lodashMergeObjDest,
      lodashMergeVal, lodashMergeArr, hasKey, lookupObj, setKey, jeq, jeqObj,
      jeqList, List.filter_cons]
